import Mathlib

/-
  A shallow embedding of `watchf` (src/main.rs): a build-and-run supervisor
  that watches files, rebuilds on qualifying change events, extracts
  executable artifact paths from the build tool's JSON output, and (in run
  mode) restarts a child process after each successful rebuild.

  Machine timestamps (`SystemTime`) are modelled as `Nat`; filesystem paths
  as `String`; the filesystem as a function from path to optional metadata
  (`fs::metadata` returning `Err` is `none`; `Metadata::modified` returning
  `Err` is `modified = none`).  The event loop of `main` is modelled as a
  fuel-style interpreter over a list of per-iteration inputs (clock reading,
  build result, filesystem snapshots, received watch event), producing the
  final coordinator state and a trace of observable actions.
-/

set_option autoImplicit false

namespace Watchf

abbrev Timestamp := Nat

abbrev Path := String

/-- Result of `fs::metadata(..)` followed by `.modified()`: the `modified`
field is `none` when `Metadata::modified` itself fails. -/
structure Metadata where
  modified : Option Timestamp
  deriving DecidableEq, Repr

/-- A filesystem snapshot: `fs p = none` models `fs::metadata(p)` failing
(path absent). -/
abbrev FS := Path → Option Metadata

/-- Event kinds of the `notify` crate; `remove` stands for
`EventKind::Remove(_)`, every other constructor for a non-remove kind. -/
inductive EventKind where
  | any
  | access
  | create
  | modify
  | remove
  | other
  deriving DecidableEq, Repr

/-- A `notify::Event`: a kind and the paths it reports. -/
structure Event where
  kind : EventKind
  paths : List Path
  deriving DecidableEq, Repr

/-- Errors of the watch subsystem (`notify::Error`), carried in the channel
messages; `main` only prints them. -/
abbrev WatchError := String

/-- The artifact map `bins : HashMap<PathBuf, SystemTime>`, as an
association list with unique keys. -/
abbrev Bins := List (Path × Timestamp)

/-- `HashMap::insert`: replace any existing entry for the key. -/
def binsInsert (bins : Bins) (p : Path) (t : Timestamp) : Bins :=
  (p, t) :: bins.filter (fun e => !(e.1 == p))

/-- Lookup in the artifact map. -/
def binsLookup (bins : Bins) (p : Path) : Option Timestamp :=
  (bins.find? (fun e => e.1 == p)).map Prod.snd

/-- `bins.values()`. -/
def binsValues (bins : Bins) : List Timestamp :=
  bins.map Prod.snd

/-- The per-path classification loop of `main` (lines 103-116): skip a path
whose `fs::metadata` fails; propagate an error (the `?` operator) when
`meta.modified()` fails; set the rebuild flag and break at the first path
whose modification time is strictly above `last_rebuild` and strictly above
at least one artifact timestamp. -/
def classifyPaths (fs : FS) (binsVals : List Timestamp) (last_rebuild : Timestamp) :
    List Path → Except Unit Bool
  | [] => .ok false
  | p :: rest =>
    match fs p with
    | none => classifyPaths fs binsVals last_rebuild rest
    | some meta =>
      match meta.modified with
      | none => .error ()
      | some m =>
        if decide (last_rebuild < m) && binsVals.any (fun b => decide (b < m)) then
          .ok true
        else
          classifyPaths fs binsVals last_rebuild rest

/-- The change classifier (spec contract `shouldRebuild`), i.e. the body of
the `if let Ok(res) = rx.recv()` match in `main` (lines 100-121): a watch
error is only logged; a `Remove(_)` event is ignored; otherwise the paths
are scanned by `classifyPaths`.  `.ok true` means the rebuild flag is set. -/
def shouldRebuild (fs : FS) (bins : Bins) (last_rebuild : Timestamp) :
    Except WatchError Event → Except Unit Bool
  | .error _ => .ok false
  | .ok ev =>
    if ev.kind == .remove then .ok false
    else classifyPaths fs (binsValues bins) last_rebuild ev.paths

/-- A path qualifies as a rebuild trigger: its modification time is readable,
strictly above `last_rebuild`, and strictly above some artifact timestamp. -/
def qualifies (fs : FS) (binsVals : List Timestamp) (last_rebuild : Timestamp)
    (p : Path) : Bool :=
  match fs p with
  | some meta =>
    match meta.modified with
    | some m => decide (last_rebuild < m) && binsVals.any (fun b => decide (b < m))
    | none => false
  | none => false

/-- The path does not make `meta.modified()` fail after a successful
`fs::metadata` (classification never hits its fatal error path on it). -/
def readsOkAt (fs : FS) (p : Path) : Bool :=
  match fs p with
  | none => true
  | some meta => meta.modified.isSome

/-- No path in `ps` makes `meta.modified()` fail after a successful
`fs::metadata`. -/
def readsOk (fs : FS) (ps : List Path) : Prop :=
  ∀ p ∈ ps, readsOkAt fs p = true

instance (fs : FS) (ps : List Path) : Decidable (readsOk fs ps) := by
  unfold readsOk
  infer_instance

/-- The artifact-map update after a successful build (`main` lines 90-94):
for each returned path, `fs::metadata(&path)?` and `meta.modified()?` are
fatal on failure (the error carries the partially updated map); on success
the entry is upserted. -/
def updateBins (fs : FS) (bins : Bins) : List Path → Except Bins Bins
  | [] => .ok bins
  | p :: rest =>
    match fs p with
    | none => .error bins
    | some meta =>
      match meta.modified with
      | none => .error bins
      | some m => updateBins fs (binsInsert bins p m) rest

/-- The two subcommands. -/
inductive Subcommand where
  | build
  | run
  deriving DecidableEq, Repr

/-- Build invocation errors (`build` lines 153-159): non-zero exit status or
any other spawn or output-read failure. -/
inductive BuildError where
  | nonZeroExit (status : Nat)
  | other
  deriving DecidableEq, Repr

/-- The mutable coordinator state of `main`: the artifact map `bins`, the
`rebuild` flag and `last_rebuild`. -/
structure State where
  bins : Bins
  rebuild : Bool
  last_rebuild : Timestamp
  deriving DecidableEq, Repr

/-- `main`'s state just after startup: empty map, `rebuild = true`,
`last_rebuild = SystemTime::now()`. -/
def initState (now0 : Timestamp) : State :=
  { bins := [], rebuild := true, last_rebuild := now0 }

/-- Observable actions of one loop iteration. -/
inductive Action where
  | buildInvoked
  | signalRestart
  | recv
  | spawnSupervisor
  deriving DecidableEq, Repr

/-- External inputs consumed by one iteration of the loop: the clock reading
used if a rebuild happens, the result of the build command, the filesystem
snapshot used to stat the returned artifacts, the received watch message,
and the filesystem snapshot used during classification. -/
structure Input where
  now : Timestamp
  buildResult : Except BuildError (List Path)
  fsBuild : FS
  event : Except WatchError Event
  fsClassify : FS

/-- Result of one iteration: continue with a state, or terminate the whole
program with an error (`?` in `main`); both carry the state at that point
and the actions performed. -/
inductive StepRes where
  | next (s : State) (acts : List Action)
  | halt (s : State) (acts : List Action)

def StepRes.state : StepRes → State
  | .next s _ => s
  | .halt s _ => s

def StepRes.acts : StepRes → List Action
  | .next _ a => a
  | .halt _ a => a

def StepRes.isHalt : StepRes → Bool
  | .next _ _ => false
  | .halt _ _ => true

/-- The rebuild arm of the loop (`main` lines 87-98): if the flag is set,
clear it, advance `last_rebuild` to the clock reading, invoke the build;
a build error or a failed artifact stat terminates the program; on success
upsert every artifact and, in run mode, send one restart signal. -/
def rebuildPhase (mode : Subcommand) (inp : Input) (s : State) : StepRes :=
  if s.rebuild then
    match inp.buildResult with
    | .error _ =>
      .halt { bins := s.bins, rebuild := false, last_rebuild := inp.now }
        [.buildInvoked]
    | .ok paths =>
      match updateBins inp.fsBuild s.bins paths with
      | .error partialBins =>
        .halt { bins := partialBins, rebuild := false, last_rebuild := inp.now }
          [.buildInvoked]
      | .ok bins2 =>
        .next { bins := bins2, rebuild := false, last_rebuild := inp.now }
          ([.buildInvoked] ++ if mode == .run then [.signalRestart] else [])
  else
    .next s []

/-- The event arm of the loop (`main` lines 100-121): block on `rx.recv()`,
then run the classifier; a classification error (`meta.modified()?`)
terminates the program; a qualifying event sets the rebuild flag. -/
def eventPhase (fs : FS) (s : State) (ev : Except WatchError Event) : StepRes :=
  match shouldRebuild fs s.bins s.last_rebuild ev with
  | .error _ => .halt s [.recv]
  | .ok true => .next { s with rebuild := true } [.recv]
  | .ok false => .next s [.recv]

/-- One full iteration of the `loop` in `main`. -/
def step (mode : Subcommand) (inp : Input) (s : State) : StepRes :=
  match rebuildPhase mode inp s with
  | .halt s1 a => .halt s1 a
  | .next s1 a =>
    match eventPhase inp.fsClassify s1 inp.event with
    | .halt s2 a2 => .halt s2 (a ++ a2)
    | .next s2 a2 => .next s2 (a ++ a2)

/-- Result of running the loop on a finite list of inputs: still running
(fuel exhausted) or terminated by an error. -/
inductive RunRes where
  | running (s : State) (acts : List Action)
  | halted (s : State) (acts : List Action)

def RunRes.state : RunRes → State
  | .running s _ => s
  | .halted s _ => s

def RunRes.acts : RunRes → List Action
  | .running _ a => a
  | .halted _ a => a

def RunRes.isHalted : RunRes → Bool
  | .running _ _ => false
  | .halted _ _ => true

def RunRes.withActsBefore (a : List Action) : RunRes → RunRes
  | .running s a2 => .running s (a ++ a2)
  | .halted s a2 => .halted s (a ++ a2)

/-- The loop of `main`, driven by a finite list of iteration inputs. -/
def runLoop (mode : Subcommand) (s : State) : List Input → RunRes
  | [] => .running s []
  | i :: rest =>
    match step mode i s with
    | .halt s1 a => .halted s1 a
    | .next s1 a => (runLoop mode s1 rest).withActsBefore a

/-- The whole program after configuration and watch setup (`main` lines
52-123): in run mode a supervisor thread is spawned before the loop. -/
def program (mode : Subcommand) (now0 : Timestamp) (inputs : List Input) : RunRes :=
  (runLoop mode (initState now0) inputs).withActsBefore
    (if mode == .run then [.spawnSupervisor] else [])

/-- The sequence of coordinator states after each completed (or aborted)
iteration. -/
def statesTrace (mode : Subcommand) (s : State) : List Input → List State
  | [] => []
  | i :: rest =>
    match step mode i s with
    | .halt s1 _ => [s1]
    | .next s1 _ => s1 :: statesTrace mode s1 rest

/-
  The artifact extractor: the pipeline of `build` (src/main.rs lines
  161-178) over the captured stdout.  A JSON value (`serde_json::Value`)
  is modelled structurally; each stdout line is modelled by its parse
  result (`serde_json::de::from_str::<Value>(line).ok()`), i.e. an
  `Option Json`.  Object keys are unique (the `serde_json` parser collapses
  duplicate keys while building a `Value`).
-/

/-- A `serde_json::Value`. -/
inductive Json where
  | null
  | bool (b : Bool)
  | num (n : Int)
  | str (s : String)
  | arr (xs : List Json)
  | obj (fields : List (String × Json))

/-- `Value::get(key)`: field lookup on objects, `None` on anything else. -/
def Json.get (j : Json) (key : String) : Option Json :=
  match j with
  | .obj fields => (fields.find? (fun f => f.1 == key)).map Prod.snd
  | _ => none

/-- Deserialize a `String`: succeeds only on a JSON string. -/
def Json.asString : Json → Option String
  | .str s => some s
  | _ => none

/-- Deserialize a `bool`: succeeds only on a JSON boolean. -/
def Json.asBool : Json → Option Bool
  | .bool b => some b
  | _ => none

/-- Deserialize a `Vec<String>`: an array whose elements are all strings. -/
def Json.asStringArr : Json → Option (List String)
  | .arr xs => xs.mapM Json.asString
  | _ => none

/-- Deserialize an `Option<PathBuf>` field under serde's derive rules: a
missing or null field is `None`, a string is `Some`, anything else fails. -/
def Json.getOptStr (j : Json) (key : String) : Option (Option String) :=
  match j.get key with
  | none => some none
  | some .null => some none
  | some (.str s) => some (some s)
  | some _ => none

/-- The `Target` struct deserialized from a cargo JSON record. -/
structure Target where
  kind : List String
  crate_types : List String
  name : String
  src_path : String
  edition : String
  doc : Bool
  doctest : Bool
  test : Bool
  deriving DecidableEq, Repr

/-- `serde_json::from_value::<Target>`: every field is required; unknown
fields are ignored. -/
def Target.fromJson (j : Json) : Option Target :=
  match j with
  | .obj _ =>
    match (j.get "kind").bind Json.asStringArr with
    | none => none
    | some kind =>
      match (j.get "crate_types").bind Json.asStringArr with
      | none => none
      | some crate_types =>
        match (j.get "name").bind Json.asString with
        | none => none
        | some name =>
          match (j.get "src_path").bind Json.asString with
          | none => none
          | some src_path =>
            match (j.get "edition").bind Json.asString with
            | none => none
            | some edition =>
              match (j.get "doc").bind Json.asBool with
              | none => none
              | some doc =>
                match (j.get "doctest").bind Json.asBool with
                | none => none
                | some doctest =>
                  match (j.get "test").bind Json.asBool with
                  | none => none
                  | some t =>
                    some { kind, crate_types, name, src_path, edition, doc,
                           doctest, test := t }
  | _ => none

/-- The `CompilerArtifact` struct of `build`. -/
structure CompilerArtifact where
  reason : String
  package_id : String
  manifest_path : String
  target : Target
  features : List String
  filenames : List String
  executable : Option Path
  fresh : Bool
  deriving DecidableEq, Repr

/-- `serde_json::from_value::<CompilerArtifact>`: all fields required except
`executable` (an `Option`, absent or null gives `none`); unknown fields are
ignored.  Only objects reach this call in the pipeline (the reason-tag
filter rejects everything else first). -/
def CompilerArtifact.fromJson (j : Json) : Option CompilerArtifact :=
  match j with
  | .obj _ =>
    ((j.get "reason").bind Json.asString).bind (fun reason =>
      ((j.get "package_id").bind Json.asString).bind (fun package_id =>
        ((j.get "manifest_path").bind Json.asString).bind (fun manifest_path =>
          ((j.get "target").bind Target.fromJson).bind (fun target =>
            ((j.get "features").bind Json.asStringArr).bind (fun features =>
              ((j.get "filenames").bind Json.asStringArr).bind (fun filenames =>
                (j.getOptStr "executable").bind (fun exe =>
                  ((j.get "fresh").bind Json.asBool).map (fun fresh =>
                    { reason, package_id, manifest_path, target, features,
                      filenames, executable := exe, fresh }))))))))
  | _ => none

/-- The raw reason-tag filter of `build`: `v.get("reason")` compared with
the string `compiler-artifact` (a `Value == &str` comparison, true only for
a JSON string with those contents). -/
def reasonIsArtifact (v : Json) : Bool :=
  match v.get "reason" with
  | some (.str s) => s == "compiler-artifact"
  | _ => false

/-- The artifact-extraction pipeline of `build` (lines 165-178): keep the
lines that parsed, filter on the raw reason tag, deserialize to
`CompilerArtifact` (failures skipped), keep records with a present
executable and a `bin` target kind, and return their executables in order. -/
def extractArtifacts (lines : List (Option Json)) : List Path :=
  ((((lines.filterMap id).filter reasonIsArtifact).filterMap
      CompilerArtifact.fromJson).filter
      (fun a => a.executable.isSome && a.target.kind.any (fun x => x == "bin"))).filterMap
    (fun a => a.executable)

/-- A record qualifies under the specification's wording: reason tag
`compiler-artifact`, a `bin` target kind, and a present, NON-EMPTY
executable path. -/
def specQualifies (a : CompilerArtifact) : Bool :=
  a.reason == "compiler-artifact" && a.target.kind.any (fun x => x == "bin") &&
    (match a.executable with
     | some p => p != ""
     | none => false)

/-- Artifact extraction as the specification words it (with the non-empty
executable requirement), for comparison with `extractArtifacts`. -/
def specExtractArtifacts (lines : List (Option Json)) : List Path :=
  lines.filterMap (fun l =>
    match l with
    | none => none
    | some v =>
      match CompilerArtifact.fromJson v with
      | none => none
      | some a => if specQualifies a then a.executable else none)

/-- A record qualifies as the code decides it: reason tag
`compiler-artifact`, a `bin` target kind, and a present (possibly empty)
executable path. -/
def codeQualifies (a : CompilerArtifact) : Bool :=
  a.reason == "compiler-artifact" && a.target.kind.any (fun x => x == "bin") &&
    a.executable.isSome

/-- Declarative form of the extraction without the non-empty requirement. -/
def extractArtifactsDecl (lines : List (Option Json)) : List Path :=
  lines.filterMap (fun l =>
    match l with
    | none => none
    | some v =>
      match CompilerArtifact.fromJson v with
      | none => none
      | some a => if codeQualifies a then a.executable else none)

/-- The build call seen from the loop (`build` lines 153-178): a non-zero
exit status is an error; otherwise the extracted artifact paths. -/
def buildRun (exitCode : Nat) (lines : List (Option Json)) :
    Except BuildError (List Path) :=
  if exitCode == 0 then .ok (extractArtifacts lines)
  else .error (.nonZeroExit exitCode)

/-
  Lemmas about the change classifier.
-/

theorem readsOk_cons {fs : FS} {p : Path} {rest : List Path}
    (h : readsOk fs (p :: rest)) :
    readsOkAt fs p = true ∧ readsOk fs rest :=
  ⟨h p (List.mem_cons_self p rest), fun q hq => h q (List.mem_cons_of_mem p hq)⟩

theorem classifyPaths_ok_true_iff (fs : FS) (vals : List Timestamp)
    (lastR : Timestamp) (ps : List Path) (h : readsOk fs ps) :
    classifyPaths fs vals lastR ps = .ok true ↔
      ∃ p ∈ ps, qualifies fs vals lastR p = true := by
  induction ps with
  | nil => simp [classifyPaths]
  | cons p rest ih =>
    obtain ⟨hp, hrest⟩ := readsOk_cons h
    cases hfs : fs p with
    | none =>
      simp only [classifyPaths, hfs]
      rw [ih hrest]
      constructor
      · rintro ⟨q, hq, hQ⟩
        exact ⟨q, List.mem_cons_of_mem p hq, hQ⟩
      · rintro ⟨q, hq, hQ⟩
        rcases List.mem_cons.1 hq with rfl | hq2
        · simp [qualifies, hfs] at hQ
        · exact ⟨q, hq2, hQ⟩
    | some meta =>
      simp only [readsOkAt, hfs] at hp
      cases hmod : meta.modified with
      | none => rw [hmod] at hp; simp at hp
      | some m =>
        by_cases hcond :
            (decide (lastR < m) && vals.any fun b => decide (b < m)) = true
        · simp only [classifyPaths, hfs, hmod]
          rw [if_pos hcond]
          constructor
          · intro _
            exact ⟨p, List.mem_cons_self p rest, by simp [qualifies, hfs, hmod, hcond]⟩
          · intro _
            rfl
        · simp only [classifyPaths, hfs, hmod]
          rw [if_neg hcond, ih hrest]
          constructor
          · rintro ⟨q, hq, hQ⟩
            exact ⟨q, List.mem_cons_of_mem p hq, hQ⟩
          · rintro ⟨q, hq, hQ⟩
            rcases List.mem_cons.1 hq with rfl | hq2
            · simp only [qualifies, hfs, hmod] at hQ
              exact absurd hQ hcond
            · exact ⟨q, hq2, hQ⟩

theorem classifyPaths_cons_qualifying (fs : FS) (vals : List Timestamp)
    (lastR : Timestamp) (p : Path) (rest : List Path)
    (h : qualifies fs vals lastR p = true) :
    classifyPaths fs vals lastR (p :: rest) = .ok true := by
  cases hfs : fs p with
  | none => simp [qualifies, hfs] at h
  | some meta =>
    cases hmod : meta.modified with
    | none => simp [qualifies, hfs, hmod] at h
    | some m =>
      simp only [qualifies, hfs, hmod] at h
      simp [classifyPaths, hfs, hmod, h]

theorem classifyPaths_never_true_of_nil_vals (fs : FS) (lastR : Timestamp)
    (ps : List Path) :
    classifyPaths fs [] lastR ps = .ok false ∨
      classifyPaths fs [] lastR ps = .error () := by
  induction ps with
  | nil => exact Or.inl rfl
  | cons p rest ih =>
    cases hfs : fs p with
    | none => simpa [classifyPaths, hfs] using ih
    | some meta =>
      cases hmod : meta.modified with
      | none => exact Or.inr (by simp [classifyPaths, hfs, hmod])
      | some m => simpa [classifyPaths, hfs, hmod] using ih

theorem classifyPaths_nil_vals_of_readsOk (fs : FS) (lastR : Timestamp)
    (ps : List Path) (h : readsOk fs ps) :
    classifyPaths fs [] lastR ps = .ok false := by
  induction ps with
  | nil => rfl
  | cons p rest ih =>
    obtain ⟨hp, hrest⟩ := readsOk_cons h
    cases hfs : fs p with
    | none =>
      simp only [classifyPaths, hfs]
      exact ih hrest
    | some meta =>
      simp only [readsOkAt, hfs] at hp
      cases hmod : meta.modified with
      | none => rw [hmod] at hp; simp at hp
      | some m =>
        simp only [classifyPaths, hfs, hmod, List.any_nil, Bool.and_false]
        simpa using ih hrest

/-- Claim C1: a non-removed event triggers a rebuild if and only if one of
its readable paths has a modification time strictly above `last_rebuild`
and strictly above at least one artifact timestamp; moreover a qualifying
head path decides classification immediately, whatever follows it. -/
theorem c1_change_classification :
    (∀ (fs : FS) (bins : Bins) (lastR : Timestamp) (ev : Event),
        ev.kind ≠ EventKind.remove → readsOk fs ev.paths →
        (shouldRebuild fs bins lastR (.ok ev) = .ok true ↔
          ∃ p ∈ ev.paths, qualifies fs (binsValues bins) lastR p = true)) ∧
    (∀ (fs : FS) (vals : List Timestamp) (lastR : Timestamp) (p : Path)
        (rest : List Path),
        qualifies fs vals lastR p = true →
        classifyPaths fs vals lastR (p :: rest) = .ok true) := by
  constructor
  · intro fs bins lastR ev hk h
    have hkb : (ev.kind == EventKind.remove) = false := by
      simpa using hk
    rw [shouldRebuild, hkb]
    simp only [Bool.false_eq_true, if_false]
    exact classifyPaths_ok_true_iff fs (binsValues bins) lastR ev.paths h
  · exact classifyPaths_cons_qualifying

/-- Claim C1 witness: a concrete modify event for a path with modification
time 10, with `last_rebuild = 3` and one artifact timestamp 4, triggers. -/
theorem c1_change_classification_witness :
    ({ kind := .modify, paths := ["src"] } : Event).kind ≠ EventKind.remove ∧
    readsOk (fun p => if p == "src" then some { modified := some 10 } else none)
      ["src"] ∧
    (shouldRebuild
        (fun p => if p == "src" then some { modified := some 10 } else none)
        [("app", 4)] 3 (.ok { kind := .modify, paths := ["src"] }) = .ok true ↔
      ∃ p ∈ ["src"],
        qualifies (fun p => if p == "src" then some { modified := some 10 } else none)
          (binsValues [("app", 4)]) 3 p = true) ∧
    qualifies (fun p => if p == "src" then some { modified := some 10 } else none)
      [4] 3 "src" = true ∧
    classifyPaths (fun p => if p == "src" then some { modified := some 10 } else none)
      [4] 3 ["src", "unread"] = .ok true :=
  ⟨by decide, by decide,
   c1_change_classification.1 _ [("app", 4)] 3 _ (by decide) (by decide),
   by decide,
   c1_change_classification.2 _ [4] 3 "src" ["unread"] (by decide)⟩

/-- Claim C3 counterexample data: a filesystem where the metadata of path
`x` is readable but its modification timestamp is not. -/
def c3FS : FS := fun p => if p == "x" then some { modified := none } else none

def c3Input : Input :=
  { now := 5, buildResult := .ok [], fsBuild := fun _ => none,
    event := .ok { kind := .modify, paths := ["x"] }, fsClassify := c3FS }

def c3State : State := { bins := [("b", 0)], rebuild := false, last_rebuild := 0 }

/-- Claim C3 counterexample: when `fs::metadata` succeeds for an event path
but `meta.modified()` fails, classification propagates the error and the
program terminates, contrary to the claim that a failed timestamp read is
never an error and never terminates the program. -/
theorem c3_counterexample :
    c3FS "x" = some { modified := none } ∧
    shouldRebuild c3FS c3State.bins c3State.last_rebuild c3Input.event =
      .error () ∧
    step Subcommand.run c3Input c3State = .halt c3State [Action.recv] := by
  refine ⟨rfl, rfl, rfl⟩

/-- Claim C3 as amended: a path whose `fs::metadata` read fails (the path
is momentarily missing) is skipped and classification continues with the
remaining paths; but a path whose metadata is readable while the
modification timestamp itself is not makes classification fail, which
terminates the program. -/
theorem c3_missing_path_skipped :
    (∀ (fs : FS) (vals : List Timestamp) (lastR : Timestamp) (p : Path)
        (rest : List Path), fs p = none →
        classifyPaths fs vals lastR (p :: rest) =
          classifyPaths fs vals lastR rest) ∧
    (∀ (fs : FS) (vals : List Timestamp) (lastR : Timestamp) (p : Path)
        (rest : List Path) (meta : Metadata),
        fs p = some meta → meta.modified = none →
        classifyPaths fs vals lastR (p :: rest) = .error ()) := by
  constructor
  · intro fs vals lastR p rest h
    simp [classifyPaths, h]
  · intro fs vals lastR p rest meta h hm
    simp [classifyPaths, h, hm]

/-- Claim C3 witness: with path `gone` absent, classification of
`[gone, src]` equals classification of `[src]`; and a readable-metadata
path with an unreadable timestamp yields the fatal error. -/
theorem c3_missing_path_skipped_witness :
    (fun p => if p == "x" then some ({ modified := none } : Metadata) else none)
        "gone" = none ∧
    classifyPaths
        (fun p => if p == "x" then some ({ modified := none } : Metadata) else none)
        [4] 3 ["gone", "src"] =
      classifyPaths
        (fun p => if p == "x" then some ({ modified := none } : Metadata) else none)
        [4] 3 ["src"] ∧
    (fun p => if p == "x" then some ({ modified := none } : Metadata) else none)
        "x" = some { modified := none } ∧
    ({ modified := none } : Metadata).modified = none ∧
    classifyPaths
        (fun p => if p == "x" then some ({ modified := none } : Metadata) else none)
        [4] 3 ["x", "src"] = .error () :=
  ⟨by decide,
   c3_missing_path_skipped.1 _ [4] 3 "gone" ["src"] (by decide),
   by decide, rfl,
   c3_missing_path_skipped.2 _ [4] 3 "x" ["src"] { modified := none }
     (by decide) rfl⟩

/-- Claim C6: an event of kind `Remove(_)` is ignored entirely: the
classifier answers false without examining any path (the result does not
depend on the filesystem or the paths), and the loop state is unchanged. -/
theorem c6_remove_ignored :
    (∀ (fs : FS) (bins : Bins) (lastR : Timestamp) (ps : List Path),
        shouldRebuild fs bins lastR
          (.ok { kind := .remove, paths := ps }) = .ok false) ∧
    (∀ (fs : FS) (s : State) (ps : List Path),
        eventPhase fs s (.ok { kind := .remove, paths := ps }) =
          .next s [Action.recv]) := by
  constructor
  · intro fs bins lastR ps
    rfl
  · intro fs s ps
    rfl

/-- Claim C9: with an empty artifact map no path can qualify: the scan
never answers true (it answers false, or fails fatally on an unreadable
timestamp), and answers exactly false whenever every readable path also has
a readable timestamp; likewise for a whole event. -/
theorem c9_empty_bins_no_trigger :
    (∀ (fs : FS) (lastR : Timestamp) (ps : List Path),
        classifyPaths fs [] lastR ps = .ok false ∨
          classifyPaths fs [] lastR ps = .error ()) ∧
    (∀ (fs : FS) (lastR : Timestamp) (ps : List Path), readsOk fs ps →
        classifyPaths fs [] lastR ps = .ok false) ∧
    (∀ (fs : FS) (lastR : Timestamp) (res : Except WatchError Event),
        shouldRebuild fs [] lastR res = .ok false ∨
          shouldRebuild fs [] lastR res = .error ()) := by
  refine ⟨classifyPaths_never_true_of_nil_vals, ?_, ?_⟩
  · exact classifyPaths_nil_vals_of_readsOk
  · intro fs lastR res
    cases res with
    | error e => exact Or.inl rfl
    | ok ev =>
      by_cases hk : (ev.kind == EventKind.remove) = true
      · exact Or.inl (by simp [shouldRebuild, hk])
      · have : shouldRebuild fs [] lastR (.ok ev) =
            classifyPaths fs [] lastR ev.paths := by
          simp [shouldRebuild, hk, binsValues]
        rw [this]
        exact classifyPaths_never_true_of_nil_vals fs lastR ev.paths

/-- Claim C9 witness: a path with modification time 10, far above
`last_rebuild = 0`, still does not qualify against an empty map. -/
theorem c9_empty_bins_no_trigger_witness :
    readsOk (fun _ => some { modified := some 10 }) ["src"] ∧
    classifyPaths (fun _ => some { modified := some 10 }) [] 0 ["src"] =
      .ok false :=
  ⟨by decide,
   c9_empty_bins_no_trigger.2.1 (fun _ => some { modified := some 10 }) 0
     ["src"] (by decide)⟩

/-
  Lemmas about the artifact map update (claim C2).
-/

theorem find?_filter_out_key (bins : Bins) (p q : Path) (h : q ≠ p) :
    (bins.filter (fun e => !(e.1 == p))).find? (fun e => e.1 == q) =
      bins.find? (fun e => e.1 == q) := by
  induction bins with
  | nil => rfl
  | cons e rest ih =>
    by_cases hep : e.1 = p
    · have h1 : (e.1 == p) = true := by simp [hep]
      have h2 : (e.1 == q) = false := by
        simp [hep]
        intro hpq
        exact h hpq.symm
      simp [List.filter_cons, h1, List.find?_cons, h2, ih]
    · have h1 : (e.1 == p) = false := by simp [hep]
      cases heq : (e.1 == q) with
      | true => simp [List.filter_cons, h1, List.find?_cons, heq]
      | false => simp [List.filter_cons, h1, List.find?_cons, heq, ih]

theorem binsLookup_insert_self (bins : Bins) (p : Path) (t : Timestamp) :
    binsLookup (binsInsert bins p t) p = some t := by
  simp [binsLookup, binsInsert, List.find?_cons]

theorem binsLookup_insert_ne (bins : Bins) (p : Path) (t : Timestamp)
    (q : Path) (h : q ≠ p) :
    binsLookup (binsInsert bins p t) q = binsLookup bins q := by
  have h1 : (p == q) = false := by
    simp
    intro hpq
    exact h hpq.symm
  simp only [binsLookup, binsInsert, List.find?_cons, h1]
  rw [find?_filter_out_key bins p q h]

theorem updateBins_ok_lookup (fs : FS) (ps : List Path) (bins r : Bins)
    (h : updateBins fs bins ps = .ok r) :
    (∀ p ∈ ps, ∃ meta m, fs p = some meta ∧ meta.modified = some m ∧
      binsLookup r p = some m) ∧
    (∀ q, q ∉ ps → binsLookup r q = binsLookup bins q) := by
  induction ps generalizing bins with
  | nil =>
    simp only [updateBins, Except.ok.injEq] at h
    subst h
    exact ⟨by simp, fun q _ => rfl⟩
  | cons p rest ih =>
    cases hfs : fs p with
    | none => simp [updateBins, hfs] at h
    | some meta =>
      cases hmod : meta.modified with
      | none => simp [updateBins, hfs, hmod] at h
      | some m =>
        simp only [updateBins, hfs, hmod] at h
        obtain ⟨ih1, ih2⟩ := ih (binsInsert bins p m) h
        constructor
        · intro x hx
          rcases List.mem_cons.1 hx with rfl | hx2
          · by_cases hpr : x ∈ rest
            · exact ih1 x hpr
            · refine ⟨meta, m, hfs, hmod, ?_⟩
              rw [ih2 x hpr, binsLookup_insert_self]
          · exact ih1 x hx2
        · intro q hq
          have hq1 : q ≠ p := fun e => hq (e ▸ List.mem_cons_self p rest)
          have hq2 : q ∉ rest := fun c => hq (List.mem_cons_of_mem p c)
          rw [ih2 q hq2, binsLookup_insert_ne bins p m q hq1]

/-- Claim C2 counterexample data: the previous map holds a stale entry
`old`; the build reports only `new`, whose modification time reads as 7. -/
def c2FS : FS := fun p => if p == "new" then some { modified := some 7 } else none

def c2Input : Input :=
  { now := 9, buildResult := .ok ["new"], fsBuild := c2FS,
    event := .ok { kind := .modify, paths := [] }, fsClassify := fun _ => none }

def c2State : State := { bins := [("old", 5)], rebuild := true, last_rebuild := 0 }

/-- Claim C2 counterexample: after a successful rebuild that reports only
the path `new`, the artifact map still contains the entry for `old`, a path
not reported by that build — so the map does not consist exactly of the
reported paths. -/
theorem c2_counterexample :
    step Subcommand.build c2Input c2State =
      .next { bins := [("new", 7), ("old", 5)], rebuild := false, last_rebuild := 9 }
        [Action.buildInvoked, Action.recv] ∧
    binsLookup [("new", 7), ("old", 5)] "old" = some 5 ∧
    (["new"].contains "old") = false := by
  refine ⟨rfl, rfl, rfl⟩

/-- Claim C2 as amended: after any successful rebuild, every path reported
by that build is present in the artifact map with its freshly read
modification time, and every entry for a path not reported by that build is
carried over unchanged from before the rebuild (stale entries are never
removed). -/
theorem c2_map_after_rebuild :
    ∀ (mode : Subcommand) (inp : Input) (s : State) (paths : List Path)
      (s2 : State) (a : List Action),
      s.rebuild = true → inp.buildResult = .ok paths →
      rebuildPhase mode inp s = .next s2 a →
      (∀ p ∈ paths, ∃ meta m, inp.fsBuild p = some meta ∧
        meta.modified = some m ∧ binsLookup s2.bins p = some m) ∧
      (∀ q, q ∉ paths → binsLookup s2.bins q = binsLookup s.bins q) := by
  intro mode inp s paths s2 a hr hb h
  simp only [rebuildPhase, hr, if_true, hb] at h
  cases hu : updateBins inp.fsBuild s.bins paths with
  | error partialBins =>
    simp only [hu] at h
    exact absurd h (by simp)
  | ok bins2 =>
    simp only [hu, StepRes.next.injEq] at h
    obtain ⟨h1, -⟩ := h
    rw [← h1]
    simpa using updateBins_ok_lookup inp.fsBuild paths s.bins bins2 hu

/-- The coordinator state after the rebuild of the claim C2 scenario. -/
def c2After : State :=
  { bins := [("new", 7), ("old", 5)], rebuild := false, last_rebuild := 9 }

/-- Claim C2 witness: a successful rebuild over a previous map with a stale
entry `old` and a reported path `new`: `new` carries its fresh timestamp 7
and `old` keeps its previous timestamp. -/
theorem c2_map_after_rebuild_witness :
    c2State.rebuild = true ∧
    c2Input.buildResult = .ok ["new"] ∧
    rebuildPhase Subcommand.build c2Input c2State =
      .next c2After [Action.buildInvoked] ∧
    ((∀ p ∈ ["new"], ∃ meta m, c2Input.fsBuild p = some meta ∧
        meta.modified = some m ∧ binsLookup c2After.bins p = some m) ∧
      (∀ q, q ∉ ["new"] →
        binsLookup c2After.bins q = binsLookup c2State.bins q)) :=
  ⟨rfl, rfl, rfl,
   c2_map_after_rebuild Subcommand.build c2Input c2State ["new"] c2After
     [Action.buildInvoked] rfl rfl rfl⟩

/-
  Claim C4: a build failure terminates the whole program.
-/

/-- Claim C4: a non-zero exit status makes the build call fail, and a
failed build makes the iteration terminate the whole program with the
artifact map untouched and no restart signal among the performed actions —
while the rebuild flag was already cleared and `last_rebuild` already
advanced to the clock reading taken before the invocation; the remaining
loop iterations never run. -/
theorem c4_build_failure_halts :
    (∀ (ec : Nat) (lines : List (Option Json)), ec ≠ 0 →
        buildRun ec lines = .error (.nonZeroExit ec)) ∧
    (∀ (mode : Subcommand) (inp : Input) (s : State) (e : BuildError),
        s.rebuild = true → inp.buildResult = .error e →
        step mode inp s =
          .halt { bins := s.bins, rebuild := false, last_rebuild := inp.now }
            [Action.buildInvoked]) ∧
    (∀ (mode : Subcommand) (inp : Input) (s : State) (e : BuildError)
        (rest : List Input),
        s.rebuild = true → inp.buildResult = .error e →
        runLoop mode s (inp :: rest) =
          .halted { bins := s.bins, rebuild := false, last_rebuild := inp.now }
            [Action.buildInvoked]) := by
  have hstep : ∀ (mode : Subcommand) (inp : Input) (s : State) (e : BuildError),
      s.rebuild = true → inp.buildResult = .error e →
      step mode inp s =
        .halt { bins := s.bins, rebuild := false, last_rebuild := inp.now }
          [Action.buildInvoked] := by
    intro mode inp s e hr hb
    simp only [step, rebuildPhase, hr, if_true, hb]
  refine ⟨?_, hstep, ?_⟩
  · intro ec lines h
    have : (ec == 0) = false := by
      simpa using h
    simp [buildRun, this]
  · intro mode inp s e rest hr hb
    simp only [runLoop, hstep mode inp s e hr hb]

/-- Claim C4 witness: a build exiting with status 2 fails, and the
iteration halts the program with the map untouched and only the build
invocation performed. -/
theorem c4_build_failure_halts_witness :
    (2 : Nat) ≠ 0 ∧
    buildRun 2 [] = .error (.nonZeroExit 2) ∧
    c2State.rebuild = true ∧
    ({ now := 9, buildResult := .error (.nonZeroExit 2), fsBuild := c2FS,
       event := .ok { kind := .modify, paths := [] },
       fsClassify := fun _ => none } : Input).buildResult =
      .error (.nonZeroExit 2) ∧
    runLoop Subcommand.run c2State
        [{ now := 9, buildResult := .error (.nonZeroExit 2), fsBuild := c2FS,
           event := .ok { kind := .modify, paths := [] },
           fsClassify := fun _ => none }] =
      .halted { bins := c2State.bins, rebuild := false, last_rebuild := 9 }
        [Action.buildInvoked] :=
  ⟨by decide,
   c4_build_failure_halts.1 2 [] (by decide),
   rfl, rfl,
   c4_build_failure_halts.2.2 Subcommand.run _ c2State (.nonZeroExit 2) []
     rfl rfl⟩

/-
  Claim C7: behaviour of `last_rebuild` across the run.
-/

theorem eventPhase_state_last (fs : FS) (s : State) (ev : Except WatchError Event) :
    ((eventPhase fs s ev).state).last_rebuild = s.last_rebuild := by
  unfold eventPhase
  cases h : shouldRebuild fs s.bins s.last_rebuild ev with
  | error e => rfl
  | ok b => cases b <;> rfl

theorem rebuildPhase_state_last (mode : Subcommand) (inp : Input) (s : State) :
    ((rebuildPhase mode inp s).state).last_rebuild =
      if s.rebuild then inp.now else s.last_rebuild := by
  by_cases hr : s.rebuild = true
  · simp only [rebuildPhase, hr, if_true]
    split
    · rfl
    · split
      · rfl
      · rfl
  · simp only [rebuildPhase, hr, if_false, Bool.false_eq_true]
    rfl

theorem step_state_last (mode : Subcommand) (inp : Input) (s : State) :
    ((step mode inp s).state).last_rebuild =
      if s.rebuild then inp.now else s.last_rebuild := by
  have h1 := rebuildPhase_state_last mode inp s
  unfold step
  cases hr : rebuildPhase mode inp s with
  | halt s1 a =>
    rw [hr] at h1
    exact h1
  | next s1 a =>
    rw [hr] at h1
    simp only [StepRes.state] at h1
    have h2 := eventPhase_state_last inp.fsClassify s1 inp.event
    cases he : eventPhase inp.fsClassify s1 inp.event with
    | halt s2 a2 =>
      rw [he] at h2
      simp only [StepRes.state] at h2
      simp only [he, StepRes.state]
      rw [h2, h1]
    | next s2 a2 =>
      rw [he] at h2
      simp only [StepRes.state] at h2
      simp only [he, StepRes.state]
      rw [h2, h1]

theorem statesTrace_chain (mode : Subcommand) :
    ∀ (inputs : List Input) (s : State),
      List.Pairwise (fun a b => a ≤ b)
        (s.last_rebuild :: inputs.map Input.now) →
      List.Chain' (fun a b => a ≤ b)
        (s.last_rebuild :: (statesTrace mode s inputs).map State.last_rebuild) := by
  intro inputs
  induction inputs with
  | nil =>
    intro s _
    simp [statesTrace]
  | cons i rest ih =>
    intro s h
    rw [List.map_cons, List.pairwise_cons] at h
    obtain ⟨hbound, h2⟩ := h
    have hle : s.last_rebuild ≤ i.now :=
      hbound i.now (List.mem_cons_self _ _)
    have hlast := step_state_last mode i s
    have hstep_le : s.last_rebuild ≤ ((step mode i s).state).last_rebuild := by
      rw [hlast]
      by_cases hr : s.rebuild = true
      · rw [if_pos hr]; exact hle
      · rw [if_neg hr]
    have hstep_bound : ∀ t ∈ rest.map Input.now,
        ((step mode i s).state).last_rebuild ≤ t := by
      intro t ht
      rw [hlast]
      by_cases hr : s.rebuild = true
      · rw [if_pos hr]
        exact (List.pairwise_cons.1 h2).1 t ht
      · rw [if_neg hr]
        exact hbound t (List.mem_cons_of_mem _ ht)
    unfold statesTrace
    cases hs : step mode i s with
    | halt s1 a =>
      rw [hs] at hstep_le
      simp only [StepRes.state] at hstep_le
      simp [List.chain'_cons, hstep_le]
    | next s1 a =>
      rw [hs] at hstep_le hstep_bound
      simp only [StepRes.state] at hstep_le hstep_bound
      rw [List.map_cons, List.chain'_cons]
      refine ⟨hstep_le, ?_⟩
      apply ih s1
      rw [List.pairwise_cons]
      exact ⟨hstep_bound, (List.pairwise_cons.1 h2).2⟩

/-- Claim C7: `last_rebuild` is monotonically non-decreasing across the
whole run whenever the clock readings are non-decreasing; within an
iteration whose rebuild flag is set it is updated (exactly once) to the
clock reading taken before the build command is invoked — the resulting
value is `inp.now` regardless of the build outcome, including failure —
and an iteration without a rebuild leaves it unchanged. -/
theorem c7_last_rebuild_invariant :
    (∀ (mode : Subcommand) (s : State) (inputs : List Input),
        List.Pairwise (fun a b => a ≤ b)
          (s.last_rebuild :: inputs.map Input.now) →
        List.Chain' (fun a b => a ≤ b)
          (s.last_rebuild ::
            (statesTrace mode s inputs).map State.last_rebuild)) ∧
    (∀ (mode : Subcommand) (inp : Input) (s : State), s.rebuild = true →
        ((step mode inp s).state).last_rebuild = inp.now) ∧
    (∀ (mode : Subcommand) (inp : Input) (s : State), s.rebuild = false →
        ((step mode inp s).state).last_rebuild = s.last_rebuild) := by
  refine ⟨fun mode s inputs h => statesTrace_chain mode inputs s h, ?_, ?_⟩
  · intro mode inp s hr
    rw [step_state_last, if_pos hr]
  · intro mode inp s hr
    rw [step_state_last, if_neg (by simp [hr])]

/-- Claim C7 witness: with clock readings 0 ≤ 9, a run of one rebuilding
iteration has a non-decreasing `last_rebuild` trace, the rebuilding step
sets it to the clock reading 9, and a non-rebuilding step keeps it at 0. -/
theorem c7_last_rebuild_invariant_witness :
    List.Pairwise (fun a b => a ≤ b)
      (c2State.last_rebuild :: [c2Input].map Input.now) ∧
    List.Chain' (fun a b => a ≤ b)
      (c2State.last_rebuild ::
        (statesTrace Subcommand.build c2State [c2Input]).map State.last_rebuild) ∧
    c2State.rebuild = true ∧
    ((step Subcommand.build c2Input c2State).state).last_rebuild = c2Input.now ∧
    c3State.rebuild = false ∧
    ((step Subcommand.build c2Input c3State).state).last_rebuild =
      c3State.last_rebuild :=
  ⟨by decide,
   c7_last_rebuild_invariant.1 Subcommand.build c2State [c2Input] (by decide),
   rfl,
   c7_last_rebuild_invariant.2.1 Subcommand.build c2Input c2State rfl,
   rfl,
   c7_last_rebuild_invariant.2.2 Subcommand.build c2Input c3State rfl⟩

/-
  Claim C8: exactly one build happens before the first event is awaited.
-/

theorem RunRes.acts_withActsBefore (a : List Action) (r : RunRes) :
    (r.withActsBefore a).acts = a ++ r.acts := by
  cases r <;> rfl

theorem RunRes.state_withActsBefore (a : List Action) (r : RunRes) :
    (r.withActsBefore a).state = r.state := by
  cases r <;> rfl

theorem RunRes.isHalted_withActsBefore (a : List Action) (r : RunRes) :
    (r.withActsBefore a).isHalted = r.isHalted := by
  cases r <;> rfl

theorem eventPhase_acts (fs : FS) (s : State) (ev : Except WatchError Event) :
    (eventPhase fs s ev).acts = [Action.recv] := by
  unfold eventPhase
  cases h : shouldRebuild fs s.bins s.last_rebuild ev with
  | error e => rfl
  | ok b => cases b <;> rfl

/-- The number of build invocations performed before the first blocking
receive in an action trace. -/
def buildsBeforeFirstRecv (acts : List Action) : Nat :=
  (acts.takeWhile (fun a => !(a == Action.recv))).count Action.buildInvoked

theorem bbfr_build_recv (tail : List Action) :
    buildsBeforeFirstRecv (Action.buildInvoked :: Action.recv :: tail) = 1 :=
  rfl

theorem bbfr_build_sig_recv (tail : List Action) :
    buildsBeforeFirstRecv
      (Action.buildInvoked :: Action.signalRestart :: Action.recv :: tail) = 1 :=
  rfl

/-- Claim C8: starting from the initial state (whose rebuild flag is true),
any non-empty run performs exactly one build invocation before the first
receive on the event channel, whatever the watch activity and the build
outcome. -/
theorem c8_initial_build :
    ∀ (mode : Subcommand) (now0 : Timestamp) (i : Input) (rest : List Input),
      buildsBeforeFirstRecv
        ((runLoop mode (initState now0) (i :: rest)).acts) = 1 := by
  intro mode now0 i rest
  unfold runLoop step rebuildPhase
  simp only [initState, if_true]
  cases hb : i.buildResult with
  | error e => rfl
  | ok paths =>
    cases hu : updateBins i.fsBuild [] paths with
    | error partialBins =>
      simp only [hu]
      rfl
    | ok bins2 =>
      simp only [hu]
      have h2 := eventPhase_acts i.fsClassify
        { bins := bins2, rebuild := false, last_rebuild := i.now } i.event
      cases he : eventPhase i.fsClassify
          { bins := bins2, rebuild := false, last_rebuild := i.now } i.event with
      | halt s2 a2 =>
        rw [he] at h2
        simp only [StepRes.acts] at h2
        simp only [he]
        subst h2
        cases mode <;> rfl
      | next s2 a2 =>
        rw [he] at h2
        simp only [StepRes.acts] at h2
        simp only [he, RunRes.acts_withActsBefore]
        subst h2
        cases mode
        · simp only [List.cons_append, List.nil_append, List.append_assoc,
            List.singleton_append]
          exact bbfr_build_recv _
        · simp only [List.cons_append, List.nil_append, List.append_assoc,
            List.singleton_append]
          exact bbfr_build_sig_recv _

/-
  Claim C10: the `build` subcommand is the `run` subcommand minus the
  supervisor spawn and the restart signals.
-/

/-- Remove the supervisor-related actions from a trace. -/
def scrub (l : List Action) : List Action :=
  l.filter (fun a => !(a == Action.signalRestart) && !(a == Action.spawnSupervisor))

theorem scrub_append (l1 l2 : List Action) :
    scrub (l1 ++ l2) = scrub l1 ++ scrub l2 :=
  List.filter_append _ _

theorem scrub_count_signalRestart (l : List Action) :
    (scrub l).count Action.signalRestart = 0 := by
  induction l with
  | nil => rfl
  | cons a rest ih =>
    cases a <;> simpa [scrub, List.filter_cons, List.count_cons] using ih

theorem scrub_count_spawnSupervisor (l : List Action) :
    (scrub l).count Action.spawnSupervisor = 0 := by
  induction l with
  | nil => rfl
  | cons a rest ih =>
    cases a <;> simpa [scrub, List.filter_cons, List.count_cons] using ih

theorem step_mode_frame (i : Input) (s : State) :
    (step Subcommand.build i s).state = (step Subcommand.run i s).state ∧
    (step Subcommand.build i s).acts = scrub ((step Subcommand.run i s).acts) ∧
    (step Subcommand.build i s).isHalt = (step Subcommand.run i s).isHalt := by
  unfold step rebuildPhase
  by_cases hr : s.rebuild = true
  · simp only [hr, if_true]
    cases hb : i.buildResult with
    | error e => refine ⟨?_, ?_, ?_⟩ <;> first | rfl | trivial
    | ok paths =>
      cases hu : updateBins i.fsBuild s.bins paths with
      | error partialBins =>
        simp only [hu]
        refine ⟨?_, ?_, ?_⟩ <;> first | rfl | trivial
      | ok bins2 =>
        simp only [hu]
        have h2 := eventPhase_acts i.fsClassify
          { bins := bins2, rebuild := false, last_rebuild := i.now } i.event
        cases he : eventPhase i.fsClassify
            { bins := bins2, rebuild := false, last_rebuild := i.now } i.event with
        | halt s2 a2 =>
          rw [he] at h2
          simp only [StepRes.acts] at h2
          simp only [he]
          subst h2
          refine ⟨?_, ?_, ?_⟩ <;> first | rfl | trivial
        | next s2 a2 =>
          rw [he] at h2
          simp only [StepRes.acts] at h2
          simp only [he]
          subst h2
          refine ⟨?_, ?_, ?_⟩ <;> first | rfl | trivial
  · simp only [hr]
    have hrf : s.rebuild = false := by
      simpa using hr
    simp only [hrf, Bool.false_eq_true, if_false]
    cases he : eventPhase i.fsClassify s i.event with
    | halt s2 a2 =>
      have h2 := eventPhase_acts i.fsClassify s i.event
      rw [he] at h2
      simp only [StepRes.acts] at h2
      subst h2
      simp only [he]
      refine ⟨?_, ?_, ?_⟩ <;> first | rfl | trivial
    | next s2 a2 =>
      have h2 := eventPhase_acts i.fsClassify s i.event
      rw [he] at h2
      simp only [StepRes.acts] at h2
      subst h2
      simp only [he]
      refine ⟨?_, ?_, ?_⟩ <;> first | rfl | trivial

theorem runLoop_mode_frame :
    ∀ (inputs : List Input) (s : State),
      (runLoop Subcommand.build s inputs).state =
        (runLoop Subcommand.run s inputs).state ∧
      (runLoop Subcommand.build s inputs).acts =
        scrub ((runLoop Subcommand.run s inputs).acts) ∧
      (runLoop Subcommand.build s inputs).isHalted =
        (runLoop Subcommand.run s inputs).isHalted := by
  intro inputs
  induction inputs with
  | nil =>
    intro s
    exact ⟨rfl, rfl, rfl⟩
  | cons i rest ih =>
    intro s
    obtain ⟨h1, h2, h3⟩ := step_mode_frame i s
    unfold runLoop
    cases hb : step Subcommand.build i s with
    | halt s1 a =>
      cases hrn : step Subcommand.run i s with
      | next s2 a2 =>
        rw [hb, hrn] at h3
        simp [StepRes.isHalt] at h3
      | halt s2 a2 =>
        rw [hb, hrn] at h1 h2
        simp only [StepRes.state, StepRes.acts] at h1 h2
        simp only [hb, hrn]
        exact ⟨h1, h2, rfl⟩
    | next s1 a =>
      cases hrn : step Subcommand.run i s with
      | halt s2 a2 =>
        rw [hb, hrn] at h3
        simp [StepRes.isHalt] at h3
      | next s2 a2 =>
        rw [hb, hrn] at h1 h2
        simp only [StepRes.state, StepRes.acts] at h1 h2
        simp only [hb, hrn]
        obtain ⟨i1, i2, i3⟩ := ih s2
        rw [h1]
        refine ⟨?_, ?_, ?_⟩
        · rw [RunRes.state_withActsBefore, RunRes.state_withActsBefore]
          exact i1
        · rw [RunRes.acts_withActsBefore, RunRes.acts_withActsBefore,
            scrub_append, i2, h2]
        · rw [RunRes.isHalted_withActsBefore, RunRes.isHalted_withActsBefore]
          exact i3

/-- Claim C10: under the `build` subcommand no supervisor is spawned and no
restart signal is ever sent — its action trace is exactly the `run`-mode
trace with the supervisor spawn and the restart signals removed — while the
coordinator state evolution and the termination behaviour are identical to
`run` mode. -/
theorem c10_build_mode_frame :
    ∀ (now0 : Timestamp) (inputs : List Input),
      (program Subcommand.build now0 inputs).state =
        (program Subcommand.run now0 inputs).state ∧
      (program Subcommand.build now0 inputs).isHalted =
        (program Subcommand.run now0 inputs).isHalted ∧
      (program Subcommand.build now0 inputs).acts =
        scrub ((program Subcommand.run now0 inputs).acts) ∧
      ((program Subcommand.build now0 inputs).acts).count
        Action.signalRestart = 0 ∧
      ((program Subcommand.build now0 inputs).acts).count
        Action.spawnSupervisor = 0 := by
  intro now0 inputs
  obtain ⟨h1, h2, h3⟩ := runLoop_mode_frame inputs (initState now0)
  have hacts : (program Subcommand.build now0 inputs).acts =
      scrub ((program Subcommand.run now0 inputs).acts) := by
    unfold program
    rw [RunRes.acts_withActsBefore, RunRes.acts_withActsBefore, scrub_append]
    rw [h2]
    rfl
  refine ⟨?_, ?_, hacts, ?_, ?_⟩
  · unfold program
    rw [RunRes.state_withActsBefore, RunRes.state_withActsBefore]
    exact h1
  · unfold program
    rw [RunRes.isHalted_withActsBefore, RunRes.isHalted_withActsBefore]
    exact h3
  · rw [hacts]
    exact scrub_count_signalRestart _
  · rw [hacts]
    exact scrub_count_spawnSupervisor _

/-
  Claim C5: artifact extraction from the build tool's JSON output.
-/

theorem Json.asString_eq_some {j : Json} {s : String}
    (h : Json.asString j = some s) : j = .str s := by
  cases j <;> simp_all [Json.asString]

theorem fromJson_get_reason {v : Json} {a : CompilerArtifact}
    (h : CompilerArtifact.fromJson v = some a) :
    v.get "reason" = some (.str a.reason) := by
  cases v with
  | null => simp [CompilerArtifact.fromJson] at h
  | bool b => simp [CompilerArtifact.fromJson] at h
  | num n => simp [CompilerArtifact.fromJson] at h
  | str s => simp [CompilerArtifact.fromJson] at h
  | arr xs => simp [CompilerArtifact.fromJson] at h
  | obj fields =>
    simp only [CompilerArtifact.fromJson, Option.bind_eq_some,
      Option.map_eq_some'] at h
    obtain ⟨reason, hr, package_id, hp, manifest_path, hm, target, ht,
      features, hf, filenames, hfn, exe, he, fresh, hfr, hrec⟩ := h
    obtain ⟨jr, hjr, hstr⟩ := hr
    have hjs : jr = .str reason := Json.asString_eq_some hstr
    subst hjs
    rw [hjr, ← hrec]

theorem reasonIsArtifact_of_fromJson {v : Json} {a : CompilerArtifact}
    (h : CompilerArtifact.fromJson v = some a) :
    reasonIsArtifact v = (a.reason == "compiler-artifact") := by
  rw [reasonIsArtifact, fromJson_get_reason h]

/-- Claim C5 (amended): the extraction returns exactly the executable
paths of the lines that parse as compiler-artifact records with a `bin`
target kind and a present (possibly empty) executable path, in the order
the qualifying records appear, duplicates permitted. -/
theorem c5_artifact_extraction (lines : List (Option Json)) :
    extractArtifacts lines = extractArtifactsDecl lines := by
  induction lines with
  | nil => rfl
  | cons l rest ih =>
    cases l with
    | none =>
      simpa [extractArtifacts, extractArtifactsDecl, List.filterMap_cons]
        using ih
    | some v =>
      by_cases hq : reasonIsArtifact v = true
      · cases hfj : CompilerArtifact.fromJson v with
        | none =>
          simp only [extractArtifacts, extractArtifactsDecl,
            List.filterMap_cons, List.filter_cons, id_eq, hq, if_true, hfj]
          simpa only [extractArtifacts, extractArtifactsDecl] using ih
        | some a =>
          have hreason : (a.reason == "compiler-artifact") = true := by
            rw [← reasonIsArtifact_of_fromJson hfj]
            exact hq
          by_cases hcq : (a.executable.isSome &&
              a.target.kind.any fun x => x == "bin") = true
          · cases hexe : a.executable with
            | none => rw [hexe] at hcq; simp at hcq
            | some p =>
              rw [hexe] at hcq
              simp only [Option.isSome_some, Bool.true_and] at hcq
              have hcqa : codeQualifies a = true := by
                simp [codeQualifies, hreason, hcq, hexe]
              simp only [extractArtifacts, extractArtifactsDecl,
                List.filterMap_cons, List.filter_cons, id_eq, hq, if_true,
                hfj, hexe, Option.isSome_some, Bool.true_and, Bool.and_true,
                hcq, hcqa, if_true]
              have ih2 := ih
              simp only [extractArtifacts, extractArtifactsDecl] at ih2
              rw [ih2]
          · have hcq2 : (a.executable.isSome &&
                a.target.kind.any fun x => x == "bin") = false :=
              Bool.eq_false_iff.2 hcq
            have hcqa : codeQualifies a = false := by
              cases hi : a.executable.isSome <;>
                cases hk : a.target.kind.any fun x => x == "bin" <;>
                simp_all [codeQualifies]
            simp only [extractArtifacts, extractArtifactsDecl,
              List.filterMap_cons, List.filter_cons, id_eq, hq, if_true,
              hfj, hcq2, hcqa, Bool.false_eq_true, if_false]
            simpa only [extractArtifacts, extractArtifactsDecl] using ih
      · have hq2 : reasonIsArtifact v = false := by
          simpa using hq
        cases hfj : CompilerArtifact.fromJson v with
        | none =>
          simp only [extractArtifacts, extractArtifactsDecl,
            List.filterMap_cons, List.filter_cons, id_eq, hq2,
            Bool.false_eq_true, if_false, hfj]
          simpa only [extractArtifacts, extractArtifactsDecl] using ih
        | some a =>
          have hreason : (a.reason == "compiler-artifact") = false := by
            rw [← reasonIsArtifact_of_fromJson hfj]
            exact hq2
          have hcqa : codeQualifies a = false := by
            simp [codeQualifies, hreason]
          simp only [extractArtifacts, extractArtifactsDecl,
            List.filterMap_cons, List.filter_cons, id_eq, hq2,
            Bool.false_eq_true, if_false, hfj, hcqa]
          simpa only [extractArtifacts, extractArtifactsDecl] using ih

def c5Target : Json :=
  .obj [("kind", .arr [.str "bin"]), ("crate_types", .arr [.str "bin"]),
        ("name", .str "app"), ("src_path", .str "src/main.rs"),
        ("edition", .str "2021"), ("doc", .bool true),
        ("doctest", .bool false), ("test", .bool false)]

def c5Line : Json :=
  .obj [("reason", .str "compiler-artifact"),
        ("package_id", .str "app 0.1.0"),
        ("manifest_path", .str "/w/Cargo.toml"), ("target", c5Target),
        ("features", .arr []), ("filenames", .arr [.str "target/debug/app"]),
        ("executable", .str ""), ("fresh", .bool false)]

/-- Claim C5 counterexample: a well-formed compiler-artifact record for a
`bin` target whose executable path is present but EMPTY: the code returns
the empty path, while the claim (which requires a non-empty executable
path, as `specExtractArtifacts` words it) excludes it. -/
theorem c5_counterexample :
    extractArtifacts [some c5Line] = [""] ∧
    specExtractArtifacts [some c5Line] = [] :=
  ⟨rfl, rfl⟩



end Watchf
